import Mathlib

/-!
Verification of the Patter interpreter core (`src/main.rs` of the lispap
repository) against its natural-language specification.

The term algebra, classification predicates, structural equality, the
simplifier, the pattern matcher, the evaluator and function application are
embedded shallowly below. Evaluation and matching are mutually recursive and
not structurally terminating in the source, so they are indexed by a fuel
parameter: at each fuel level the record `Interp` packages the three mutually
recursive operations, and `interp` builds the level `fuel + 1` operations from
the level `fuel` ones; every recursive call in the source costs exactly one
fuel level. Running out of fuel is the distinguished outcome `spin`; a Rust
panic is the distinguished outcome `fault`; interpreter errors carry their
error-kind tag (the human-readable callstack strings attached to errors in the
source are elided, as no statement below concerns them).

Code of the repository that lives in modules not present under `src/`
(`context`, `intern`, `number`, `macros`) is modeled from the specification;
each such definition carries a doc comment starting `Modelled from the spec:`.
-/

/-- Modelled from the spec: the identifier structural value (ordered name path
plus top-level-namespace flag). The process-wide interner (the `intern`
collaborator module, not under `src/`) canonicalizes structurally equal
identifiers to one handle, so an interned handle is modeled as the structural
value itself, with handle equality given by structural equality. -/
structure Ident where
  names : List String
  tl_ns : Bool
deriving DecidableEq

/-- Modelled from the spec: the `ident!` macro interns the written name. The
exact name-path splitting is irrelevant here; any injective encoding of the
source text serves as the canonical handle. -/
def ident (s : String) : Ident := ⟨[s], false⟩

/-- The error-kind tags of `InterpreterError` (`error` module), as named by the
spec's error taxonomy. -/
inductive ErrKind where
  | CannotEvaluate
  | CannotCall
  | UnknownName
  | UndefinedSigil
  | NonMatchingArgs
  | CannotConvert
  | NotA
  | ReachedTheUnreachable
deriving DecidableEq

/-- Outcome of running a fragment of interpreter code: a value, a returned
`InterpreterError`, a Rust panic (`fault`), or fuel exhaustion (`spin`). -/
inductive Outcome (α : Type) where
  | ok (a : α)
  | err (e : ErrKind)
  | fault
  | spin

def Outcome.bind {α β : Type} : Outcome α → (α → Outcome β) → Outcome β
  | .ok a, f => f a
  | .err e, _ => .err e
  | .fault, _ => .fault
  | .spin, _ => .spin

mutual
/-- The term algebra `SExpr` of `src/main.rs`. `Number` is a collaborator type
(the `number` module); its value is modeled as an integer, since the core
treats it opaquely. The `Operation` variant holds function pointers in the
source; it is modeled as an index into an operation table supplied as a
parameter `Ops` to the interpreter. A `Bindings` (immutable map from interned
identifier to term, from the `context` collaborator module) is modeled as an
association list `List (Ident × SExpr)`. -/
inductive SExpr : Type where
  | Sigil (c : Char)
  | List (ls : List SExpr)
  | Ident (id : Ident)
  | Place (id : Ident)
  | Number (n : Int)
  | Fun (f : Fn)
  | UnarySigilApp (c : Char) (arg : SExpr)
  | Operation (op : Nat)
  | PtnAcc (acc : Fn) (init : Option (List (Ident × SExpr))) (pats : List SExpr)
  | Consecutive (pats : List SExpr)
  | Spread (ls : List SExpr)
  | Kleene (start : SExpr) (next : Fn)
  | AtPtnTime (p : SExpr)
  | LitMatch (p : SExpr)
  | ZeroWidth (p : SExpr)
  | Never

/-- The closure type `Fun` of the source: body term, parameter-pattern term,
captured bindings. -/
inductive Fn : Type where
  | mk (body : SExpr) (args_ptn : SExpr) (closure : List (Ident × SExpr))
end

abbrev Bindings := List (Ident × SExpr)

def Fn.body : Fn → SExpr
  | .mk b _ _ => b

def Fn.args_ptn : Fn → SExpr
  | .mk _ a _ => a

def Fn.closure : Fn → Bindings
  | .mk _ _ c => c

/-- The `SExprKind` discriminant enumeration of the source (it includes the
two vestigial variants `Keyword` and `Rest`). -/
inductive SExprKind where
  | Sigil
  | List
  | Ident
  | Place
  | Fun
  | UnarySigilApp
  | Number
  | Operation
  | Keyword
  | Spread
  | Rest
  | AtPtnTime
  | PtnAcc
  | LitMatch
  | Consecutive
  | Kleene
  | ZeroWidth
  | Never
deriving DecidableEq

/-- `SExpr::kind`. -/
def SExpr.kind : SExpr → SExprKind
  | .Sigil _ => .Sigil
  | .List _ => .List
  | .Ident _ => .Ident
  | .Spread _ => .Spread
  | .Place _ => .Place
  | .Fun _ => .Fun
  | .UnarySigilApp _ _ => .UnarySigilApp
  | .Number _ => .Number
  | .Operation _ => .Operation
  | .AtPtnTime _ => .AtPtnTime
  | .PtnAcc _ _ _ => .PtnAcc
  | .LitMatch _ => .LitMatch
  | .Consecutive _ => .Consecutive
  | .Kleene _ _ => .Kleene
  | .ZeroWidth _ => .ZeroWidth
  | .Never => .Never

mutual
/-- `SExpr::matches_literally`. The `Spread` and `Never` arms run
`unreachable!()` in the source, modeled as `none` (a fault when forced). The
list case is the short-circuiting `iter().all(..)` of the source. -/
def matches_literally : SExpr → Option Bool
  | .Sigil _ => some true
  | .Ident _ => some true
  | .Number _ => some true
  | .Operation _ => some true
  | .List ls => mlList ls
  | .Place _ => some false
  | .Fun _ => some false
  | .UnarySigilApp _ _ => some false
  | .PtnAcc _ _ _ => some false
  | .Consecutive _ => some false
  | .Kleene _ _ => some false
  | .AtPtnTime _ => some false
  | .ZeroWidth _ => some false
  | .LitMatch _ => some false
  | .Spread _ => none
  | .Never => none

/-- Short-circuiting conjunction of `matches_literally` over a list. -/
def mlList : List SExpr → Option Bool
  | [] => some true
  | e :: rest =>
    match matches_literally e with
    | none => none
    | some false => some false
    | some true => mlList rest
end

mutual
/-- `SExpr::matches_singular`. The `PtnAcc` case is the short-circuiting
`pats.iter().all(..)`; `Spread` and `Never` run `unreachable!()`. -/
def matches_singular : SExpr → Option Bool
  | .Sigil _ => some true
  | .Ident _ => some true
  | .LitMatch _ => some true
  | .List _ => some true
  | .Place _ => some true
  | .Fun _ => some true
  | .UnarySigilApp _ _ => some true
  | .Number _ => some true
  | .Operation _ => some true
  | .PtnAcc _ _ pats => msList pats
  | .Consecutive _ => some false
  | .Kleene _ _ => some false
  | .AtPtnTime _ => some false
  | .ZeroWidth _ => some false
  | .Spread _ => none
  | .Never => none

/-- Short-circuiting conjunction of `matches_singular` over a list. -/
def msList : List SExpr → Option Bool
  | [] => some true
  | e :: rest =>
    match matches_singular e with
    | none => none
    | some false => some false
    | some true => msList rest
end

mutual
/-- `impl PartialEq for SExpr`. Unhandled same-kind pairings (for example two
`Operation`s) run `panic!("Unhandled equality case")` in the source, modeled as
`none`. Lists compare length first and then elementwise left to right,
short-circuiting, exactly as slice equality does. `Fun` terms are never equal. -/
def beq : SExpr → SExpr → Option Bool
  | .List a, .List b =>
    if a.length = b.length then beqElems a b else some false
  | .Ident a, .Ident b => some (decide (a = b))
  | .Place a, .Place b => some (decide (a = b))
  | .Fun _, .Fun _ => some false
  | .Number a, .Number b => some (decide (a = b))
  | .UnarySigilApp s1 e1, .UnarySigilApp s2 e2 =>
    if s1 = s2 then beq e1 e2 else some false
  | .Sigil a, .Sigil b => some (decide (a = b))
  | .ZeroWidth a, .ZeroWidth b => beq a b
  | a, b => if a.kind = b.kind then none else some false

/-- Elementwise equality of two equal-length lists, left to right,
short-circuiting on the first inequality or panic. -/
def beqElems : List SExpr → List SExpr → Option Bool
  | [], _ => some true
  | a :: as', b :: bs =>
    match beq a b with
    | none => none
    | some false => some false
    | some true => beqElems as' bs
  | _ :: _, [] => some true
end

mutual
/-- `SExpr::simplify`: splice the contents of each direct `Spread` child of a
list in place (the spliced contents come from the child's simplified form,
which for a `Spread` is the `Spread` itself); keep every other child
unchanged. Recurses into a `UnarySigilApp` argument; all other variants are
returned unchanged. -/
def simplify : SExpr → SExpr
  | .List ls => .List (simplifyChildren ls)
  | .UnarySigilApp sig e => .UnarySigilApp sig (simplify e)
  | e => e

/-- The per-child loop of `SExpr::simplify` on a list: a child whose
simplified form is a `Spread` is replaced by the spread's contents; any other
child is kept as the original (not its simplified form). -/
def simplifyChildren : List SExpr → List SExpr
  | [] => []
  | e :: rest =>
    (match simplify e with
     | .Spread xs => xs
     | _ => [e]) ++ simplifyChildren rest
end

/-- `SExpr::as_fun`. -/
def as_fun : SExpr → Option Fn
  | .Fun f => some f
  | _ => none

/-- `SExpr::as_list`. -/
def as_list : SExpr → Option (List SExpr)
  | .List ls => some ls
  | _ => none

/-- `SExpr::as_ident`. -/
def as_ident : SExpr → Option Ident
  | .Ident id => some id
  | _ => none

/-- `SExpr::as_solidified`: unwraps a `':'`-sigil application. -/
def as_solidified : SExpr → Option SExpr
  | .UnarySigilApp c thing => if c = ':' then some thing else none
  | _ => none

/-- `Bindings::empty` — matching success with nothing captured. -/
def Bindings.empty : Bindings := []

/-- Modelled from the spec: `Bindings::basic`, the Kleene zero-repetition seed
provided by the `context` collaborator module (its concrete contents are not
under `src/`); modeled as the empty binding set. -/
def Bindings.basic : Bindings := []

/-- `Bindings::of(id, term)` — the singleton binding set. -/
def Bindings.of (id : Ident) (e : SExpr) : Bindings := [(id, e)]

/-- Modelled from the spec: `join(a, b)` merges two binding sets; the conflict
policy on shared keys is an open question of the spec, modeled here as
left-biased concatenation. -/
def Bindings.join (a b : Bindings) : Bindings := a ++ b

/-- Modelled from the spec: `intersect(opt_a, opt_b)` succeeds with the join of
both only if both inputs are present; otherwise fails. -/
def Bindings.intersect : Option Bindings → Option Bindings → Option Bindings
  | some a, some b => some (Bindings.join a b)
  | _, _ => none

/-- Modelled from the spec: `Bindings::of_contents` builds the binding set
holding exactly the listed pairs. -/
def Bindings.of_contents (prs : List (Ident × SExpr)) : Bindings := prs

/-- The `(Some(a), Some(b)) => Some(a.join(&b)), _ => None` combination used by
the peel and `Consecutive` cases of `match_ptn`. -/
def joinOpt : Option Bindings → Option Bindings → Option Bindings
  | some a, some b => some (Bindings.join a b)
  | _, _ => none

/-- Modelled from the spec: the scope-stack environment collaborator (the
`context` module, not under `src/`): a stack of scopes, innermost first. -/
structure Context where
  scopes : List Bindings

/-- Modelled from the spec: `Context::empty`, an environment with no scopes
(every lookup fails). -/
def Context.empty : Context := ⟨[]⟩

/-- Modelled from the spec: `push_scope` pushes a fresh innermost scope. -/
def Context.push_scope (c : Context) : Context :=
  ⟨Bindings.empty :: c.scopes⟩

/-- Modelled from the spec: `pop_scope` removes the innermost scope (strict
LIFO). -/
def Context.pop_scope (c : Context) : Context :=
  ⟨c.scopes.tail⟩

/-- Modelled from the spec: `add_bindings` merges a whole binding set into the
current innermost scope, the new bindings shadowing older ones there. -/
def Context.add_bindings (c : Context) (b : Bindings) : Context :=
  match c.scopes with
  | [] => c
  | s :: rest => ⟨Bindings.join b s :: rest⟩

/-- First entry for `id` in one scope. -/
def lookupBindings : Bindings → Ident → Option SExpr
  | [], _ => none
  | (k, v) :: rest, id => if k = id then some v else lookupBindings rest id

/-- Innermost-scope-wins search across the scope stack. -/
def lookupScopes : List Bindings → Ident → Option SExpr
  | [], _ => none
  | s :: rest, id =>
    match lookupBindings s id with
    | some v => some v
    | none => lookupScopes rest id

/-- Modelled from the spec: `lookup(id)` resolves `id` across the full scope
stack with innermost-scope-wins shadowing. -/
def Context.lookup (c : Context) (id : Ident) : Option SExpr :=
  lookupScopes c.scopes id

/-- `make_sigil_ident`: maps a sigil character to its interned identifier; the
source panics (`unreachable!()`) on any other character, modeled as `none`. -/
def make_sigil_ident (sigil : Char) : Option Ident :=
  if sigil = Char.ofNat 96 then some (ident "#/sigil/tick")
  else if sigil = ',' then some (ident "#/sigil/comma")
  else if sigil = '~' then some (ident "#/sigil/tilde")
  else if sigil = '!' then some (ident "#/sigil/bang")
  else if sigil = '@' then some (ident "#/sigil/at")
  else if sigil = '^' then some (ident "#/sigil/carrot")
  else if sigil = '&' then some (ident "#/sigil/amp")
  else if sigil = '*' then some (ident "#/sigil/star")
  else if sigil = '+' then some (ident "#/sigil/plus")
  else if sigil = '=' then some (ident "#/sigil/eq")
  else if sigil = '|' then some (ident "#/sigil/pike")
  else if sigil = '\\' then some (ident "#/sigil/backslash")
  else if sigil = ':' then some (ident "#/sigil/colon")
  else if sigil = '<' then some (ident "#/sigil/left")
  else if sigil = '>' then some (ident "#/sigil/right")
  else if sigil = '[' then some (ident "#/sigil/bracket")
  else none

/-- The solidified discriminant `UnarySigilApp(':', Ident(s))` used by the
`Option` codec. -/
def solidIdent (s : String) : SExpr :=
  .UnarySigilApp ':' (.Ident (ident s))

/-- Modelled from the spec: `impl IntoSExpr for Bindings` lives in the missing
`context` module; it is the inverse of `Bindings::from_sexpr` below, encoding
each binding as a two-element list of a solidified identifier and the bound
term. -/
def bindingsIntoSExpr (b : Bindings) : SExpr :=
  .List (b.map fun p => .List [.UnarySigilApp ':' (.Ident p.1), p.2])

/-- `impl IntoSExpr for Option<T>` at `T = Bindings`. Note that the source
emits the `some` discriminant in both arms (the `None` arm builds a singleton
list headed by `:some`), reproduced faithfully here. -/
def optBindingsIntoSExpr : Option Bindings → SExpr
  | some b => .List [solidIdent "some", bindingsIntoSExpr b]
  | none => .List [solidIdent "some"]

/-- The per-pair loop of `impl FromSExpr for Bindings`: each element must be a
two-element list whose first component is a solidified identifier. -/
def readPairs : List SExpr → Outcome (List (Ident × SExpr))
  | [] => .ok []
  | x :: rest =>
    match as_list x with
    | none => .err .CannotConvert
    | some pair =>
      match pair with
      | [k, v] =>
        match as_solidified k with
        | none => .err .CannotConvert
        | some inner =>
          match as_ident inner with
          | none => .err .CannotConvert
          | some id =>
            Outcome.bind (readPairs rest) fun tl => .ok ((id, v) :: tl)
      | _ => .err .CannotConvert

/-- `impl FromSExpr for Bindings`. -/
def bindingsFromSExpr (e : SExpr) : Outcome Bindings :=
  match as_list e with
  | none => .err .CannotConvert
  | some ls => Outcome.bind (readPairs ls) fun prs => .ok (Bindings.of_contents prs)

/-- `impl FromSExpr for Option<T>` at `T = Bindings`. The discriminant
comparison uses the panicking `PartialEq` (`beq`); with the `some`
discriminant and a one-element list the source indexes `ls[1]` out of bounds,
a panic, modeled as `fault`. -/
def optBindingsFromSExpr (e : SExpr) : Outcome (Option Bindings) :=
  match as_list e with
  | none => .err .NotA
  | some ls =>
    if ls.length = 0 ∨ 2 < ls.length then .err .CannotConvert
    else
      match ls with
      | [] => .err .CannotConvert
      | discr :: lrest =>
        match beq discr (solidIdent "some") with
        | none => .fault
        | some true =>
          match lrest with
          | [] => .fault
          | v :: _ => Outcome.bind (bindingsFromSExpr v) fun b => .ok (some b)
        | some false =>
          match beq discr (solidIdent "none") with
          | none => .fault
          | some true => .ok none
          | some false => .err .CannotConvert

/-- The table of builtin `Operation` evaluation functions (function pointers in
the source): given the operation's index and the current environment, produce a
result and the possibly mutated environment. -/
abbrev Ops := Nat → Context → Outcome SExpr × Context

/-- A fuel level of the three mutually recursive operations of the source:
`SExpr::match_ptn`, `SExpr::eval` and `Fun::call`. -/
structure Interp where
  matchPtnF : SExpr → SExpr → Outcome (Option Bindings)
  evalF : SExpr → Context → Outcome SExpr × Context
  callF : Fn → List SExpr → Context → Outcome SExpr × Context

/-- Last element of the nonempty list `p :: ptail` (`left[left.len()-1]`). -/
def lastOf (p : SExpr) : List SExpr → SExpr
  | [] => p
  | q :: qs => lastOf q qs

/-- All but the last element of the nonempty list `p :: ptail`
(`left[..left.len()-1]`). -/
def dropLastOf (p : SExpr) : List SExpr → List SExpr
  | [] => []
  | q :: qs => p :: dropLastOf q qs

/-- The `Kleene` search loop of `match_ptn`: for each repetition count `i` from
`pats.len()` up to `exprs.len()` inclusive, try the grown prefix against
`exprs[..i]` and the pattern tail against `exprs[i..]`, record a success (later
counts overwrite earlier ones), then grow the repeated sequence by calling
`next` on it in an empty environment — including after the final count, so a
failing growth call still propagates its error. `out` starts as
`Some(Bindings::basic())` in the source (the line marked `//dbg`). `remaining`
counts the loop iterations still to run. -/
def kleeneLoopWith (mp : SExpr → SExpr → Outcome (Option Bindings))
    (cal : Fn → List SExpr → Context → Outcome SExpr × Context)
    (ptail : List SExpr) (next : Fn) (exprs : List SExpr) :
    Nat → List SExpr → Nat → Option Bindings → Outcome (Option Bindings)
  | 0, _, _, out => .ok out
  | remaining + 1, pats, i, out =>
    Outcome.bind (mp (.List pats) (.List (exprs.take i))) fun a =>
    Outcome.bind (mp (.List ptail) (.List (exprs.drop i))) fun b =>
    let out2 : Option Bindings :=
      match a, b with
      | some x, some y => some (Bindings.join x y)
      | _, _ => out
    match (cal next [.List pats] Context.empty).1 with
    | .ok v => kleeneLoopWith mp cal ptail next exprs remaining (pats ++ [v]) (i + 1) out2
    | .err e => .err e
    | .fault => .fault
    | .spin => .spin

/-- The list-embedded `PtnAcc` fold of `match_ptn`: for each sub-pattern, match
the pattern list with its head replaced by that sub-pattern against the whole
value list, then combine through the accumulator function. The `patter_sr!`
macro (missing `macros` module) is modelled from the spec: it calls the
accumulator with the running value and the new match result, in an empty
environment. -/
def ptnAccListWith (mp : SExpr → SExpr → Outcome (Option Bindings))
    (cal : Fn → List SExpr → Context → Outcome SExpr × Context)
    (acc : Fn) (ptail exprs : List SExpr) :
    Option Bindings → List SExpr → Outcome (Option Bindings)
  | cur, [] => .ok cur
  | cur, pat :: ps =>
    Outcome.bind (mp (.List (pat :: ptail)) (.List exprs)) fun r =>
    match (cal acc [optBindingsIntoSExpr cur, optBindingsIntoSExpr r] Context.empty).1 with
    | .ok v =>
      Outcome.bind (optBindingsFromSExpr v) fun cur2 =>
      ptnAccListWith mp cal acc ptail exprs cur2 ps
    | .err e => .err e
    | .fault => .fault
    | .spin => .spin

/-- The bare (non-list-embedded) `PtnAcc` fold of `match_ptn`, same
accumulator protocol, matching each sub-pattern against the term directly. -/
def ptnAccBareWith (mp : SExpr → SExpr → Outcome (Option Bindings))
    (cal : Fn → List SExpr → Context → Outcome SExpr × Context)
    (acc : Fn) (expr : SExpr) :
    Option Bindings → List SExpr → Outcome (Option Bindings)
  | cur, [] => .ok cur
  | cur, pat :: ps =>
    Outcome.bind (mp pat expr) fun r =>
    match (cal acc [optBindingsIntoSExpr cur, optBindingsIntoSExpr r] Context.empty).1 with
    | .ok v =>
      Outcome.bind (optBindingsFromSExpr v) fun cur2 =>
      ptnAccBareWith mp cal acc expr cur2 ps
    | .err e => .err e
    | .fault => .fault
    | .spin => .spin

/-- The remaining list-head cases of the `List` vs `List` match, reached after
the empty, singular-peel arms have not applied: `ZeroWidth` against a
`ZeroWidth`-headed value, `ZeroWidth` against anything (consuming no value
position), `Kleene` (whose `start` must be a list, else the source's
`.unwrap()` panics), `Consecutive` (whose `exprs[..pats.len()]` slice panics
when the value side is shorter than the block), list-embedded `PtnAcc`, and
the catch-all `panic!("Failed to handle list pattern match")`. -/
def matchHeadWith (mp : SExpr → SExpr → Outcome (Option Bindings))
    (cal : Fn → List SExpr → Context → Outcome SExpr × Context)
    (p : SExpr) (ptail right : List SExpr) : Outcome (Option Bindings) :=
  match p, right with
  | .ZeroWidth l, .ZeroWidth r :: rtail =>
    Outcome.bind (mp l r) fun a =>
    Outcome.bind (mp (.List ptail) (.List rtail)) fun b =>
    .ok (Bindings.intersect a b)
  | .ZeroWidth _, right => mp (.List ptail) (.List right)
  | .Kleene start next, exprs =>
    match as_list start with
    | none => .fault
    | some pats0 =>
      kleeneLoopWith mp cal ptail next exprs
        (exprs.length + 1 - pats0.length) pats0 pats0.length (some Bindings.basic)
  | .Consecutive cpats, exprs =>
    if cpats.length ≤ exprs.length then
      Outcome.bind (mp (.List cpats) (.List (exprs.take cpats.length))) fun a =>
      Outcome.bind (mp (.List ptail) (.List (exprs.drop cpats.length))) fun b =>
      .ok (joinOpt a b)
    else .fault
  | .PtnAcc acc init pats, exprs =>
    ptnAccListWith mp cal acc ptail exprs init pats
  | _, _ => .fault

/-- The `List` vs `List` case of `match_ptn`, arms in source order: both empty;
pattern empty/value nonempty; nonempty pattern with singular head against an
empty value; singular last element peeled from the back; singular first
element peeled from the front; then the head-shape cases of `matchHeadWith`.
Guard evaluation mirrors the source: a guard that panics (a `Spread` or
`Never` classified by `matches_singular`) is a fault. -/
def matchListWith (mp : SExpr → SExpr → Outcome (Option Bindings))
    (cal : Fn → List SExpr → Context → Outcome SExpr × Context) :
    List SExpr → List SExpr → Outcome (Option Bindings)
  | [], [] => .ok (some Bindings.empty)
  | [], _ :: _ => .ok none
  | p :: ptail, [] =>
    match matches_singular p with
    | none => .fault
    | some true => .ok none
    | some false => matchHeadWith mp cal p ptail []
  | p :: ptail, q :: qtail =>
    match matches_singular (lastOf p ptail) with
    | none => .fault
    | some true =>
      Outcome.bind (mp (lastOf p ptail) (lastOf q qtail)) fun a =>
      Outcome.bind (mp (.List (dropLastOf p ptail)) (.List (dropLastOf q qtail))) fun b =>
      .ok (joinOpt a b)
    | some false =>
      match matches_singular p with
      | none => .fault
      | some true =>
        Outcome.bind (mp p q) fun a =>
        Outcome.bind (mp (.List ptail) (.List qtail)) fun b =>
        .ok (joinOpt a b)
      | some false => matchHeadWith mp cal p ptail (q :: qtail)

/-- Left-to-right evaluation of the argument terms of an application
(`ls[1..].iter().map(|e| e.eval(&mut cxt)).collect::<Result<_, _>>()`),
threading the environment and stopping at the first failure. -/
def evalArgsWith (ev : SExpr → Context → Outcome SExpr × Context) :
    List SExpr → Context → Outcome (List SExpr) × Context
  | [], c => (.ok [], c)
  | e :: rest, c =>
    match ev e c with
    | (.ok v, c1) =>
      match evalArgsWith ev rest c1 with
      | (.ok vs, c2) => (.ok (v :: vs), c2)
      | (.err er, c2) => (.err er, c2)
      | (.fault, c2) => (.fault, c2)
      | (.spin, c2) => (.spin, c2)
    | (.err er, c1) => (.err er, c1)
    | (.fault, c1) => (.fault, c1)
    | (.spin, c1) => (.spin, c1)

/-- The `expr.simplify()` applied at the end of the `try` block of
`SExpr::eval`: the successful result is simplified, everything else passes
through. -/
def simplifyOk : Outcome SExpr × Context → Outcome SExpr × Context
  | (.ok v, c) => (.ok (simplify v), c)
  | o => o

/-- The `if let Ok(Never) = result { throw ReachedTheUnreachable }` check at
the end of `SExpr::eval`: a `Never` inside a successful result becomes the
`ReachedTheUnreachable` error; everything else passes through. -/
def neverCheck : Outcome SExpr × Context → Outcome SExpr × Context
  | (.ok .Never, c) => (.err .ReachedTheUnreachable, c)
  | o => o

/-- The body of `SExpr::match_ptn` with every recursive call replaced by the
level-below operations `I`: the literal-pattern guard and comparison first
(either of which can panic), then the `List` vs `List` decomposition, `List`
vs non-`List` failure, `AtPtnTime` (calling the deferred pattern function with
no arguments in an empty environment), `Place`, bare `PtnAcc`,
`UnarySigilApp` against `UnarySigilApp`, `UnarySigilApp` against anything
else, and the final `panic!("Unhandled pattern match")` catch-all. -/
def matchPtnStep (I : Interp) (pat expr : SExpr) : Outcome (Option Bindings) :=
  match matches_literally pat with
  | none => .fault
  | some true =>
    match beq pat expr with
    | none => .fault
    | some true => .ok (some Bindings.empty)
    | some false => .ok none
  | some false =>
    match pat, expr with
    | .List left, .List right => matchListWith I.matchPtnF I.callF left right
    | .List _, _ => .ok none
    | .AtPtnTime p, thing =>
      match as_fun p with
      | none => .err .CannotCall
      | some fn =>
        match (I.callF fn [] Context.empty).1 with
        | .ok v => I.matchPtnF v thing
        | .err e => .err e
        | .fault => .fault
        | .spin => .spin
    | .Place id, thing => .ok (some (Bindings.of id thing))
    | .PtnAcc acc init pats, expr2 =>
      ptnAccBareWith I.matchPtnF I.callF acc expr2 init pats
    | .UnarySigilApp ls la, .UnarySigilApp rs ra =>
      if ls = rs then I.matchPtnF la ra else .ok none
    | .UnarySigilApp _ _, _ => .ok none
    | _, _ => .fault

/-- The dispatch of `SExpr::eval` (the `match self.simplify()` block of the
source) with the recursive calls replaced by the level-below operations `I`:
application of an evaluated head to evaluated arguments, `UnarySigilApp`
resolution through the sigil binding and call on the raw argument, identifier
and sigil lookup, `Operation` table dispatch, the `CannotEvaluate` arms for
pattern-only forms and bare functions, self-evaluating numbers, and the panic
on a directly evaluated `Never`. -/
def evalDispatch (ops : Ops) (I : Interp) (self : SExpr) (c : Context) :
    Outcome SExpr × Context :=
  match simplify self with
  | .List [] => (.err .CannotEvaluate, c)
  | .List (e0 :: rest) =>
    match I.evalF e0 c with
    | (.ok v, c1) =>
      match as_fun v with
      | none => (.err .CannotCall, c1)
      | some fn =>
        match evalArgsWith I.evalF rest c1 with
        | (.ok args, c2) => I.callF fn args c2
        | (.err er, c2) => (.err er, c2)
        | (.fault, c2) => (.fault, c2)
        | (.spin, c2) => (.spin, c2)
    | (.err er, c1) => (.err er, c1)
    | (.fault, c1) => (.fault, c1)
    | (.spin, c1) => (.spin, c1)
  | .UnarySigilApp sig arg =>
    match I.evalF (.Sigil sig) c with
    | (.ok v, c1) =>
      match as_fun v with
      | none => (.err .CannotCall, c1)
      | some fn => I.callF fn [arg] c1
    | (.err er, c1) => (.err er, c1)
    | (.fault, c1) => (.fault, c1)
    | (.spin, c1) => (.spin, c1)
  | .Ident id =>
    match c.lookup id with
    | some v => (.ok v, c)
    | none => (.err .UnknownName, c)
  | .Operation op => ops op c
  | .Sigil s =>
    match make_sigil_ident s with
    | none => (.fault, c)
    | some sigId =>
      match c.lookup sigId with
      | some v => (.ok v, c)
      | none => (.err .UndefinedSigil, c)
  | .Spread _ => (.err .CannotEvaluate, c)
  | .Consecutive _ => (.err .CannotEvaluate, c)
  | .Kleene _ _ => (.err .CannotEvaluate, c)
  | .LitMatch _ => (.err .CannotEvaluate, c)
  | .Place _ => (.err .CannotEvaluate, c)
  | .PtnAcc _ _ _ => (.err .CannotEvaluate, c)
  | .Fun _ => (.err .CannotEvaluate, c)
  | .ZeroWidth _ => (.err .CannotEvaluate, c)
  | .AtPtnTime _ => (.err .CannotEvaluate, c)
  | .Number n => (.ok (.Number n), c)
  | .Never => (.fault, c)

/-- The body of `Fun::call` with the recursive calls replaced by the
level-below operations `I`: match the parameter pattern against the evaluated
argument list; on success push the closure scope and the parameter-bindings
scope, evaluate the body, and pop both scopes (a body panic propagates without
the pops, as a Rust panic would); on match failure report `NonMatchingArgs`
with the environment untouched. -/
def callStep (I : Interp) (fn : Fn) (args : List SExpr) (c : Context) :
    Outcome SExpr × Context :=
  match I.matchPtnF fn.args_ptn (.List args) with
  | .ok (some b) =>
    let c1 := (((c.push_scope).add_bindings fn.closure).push_scope).add_bindings b
    match I.evalF fn.body c1 with
    | (.fault, c2) => (.fault, c2)
    | (r, c2) => (r, (c2.pop_scope).pop_scope)
  | .ok none => (.err .NonMatchingArgs, c)
  | .err e => (.err e, c)
  | .fault => (.fault, c)
  | .spin => (.spin, c)

/-- One fuel level of the interpreter: builds level `fuel + 1` of
`match_ptn` / `eval` / `call` from the level-`fuel` record `I`. `eval` is the
dispatch followed by the final simplification of a successful result and the
`Ok(Never)` check. -/
def interpStep (ops : Ops) (I : Interp) : Interp where
  matchPtnF := matchPtnStep I
  evalF := fun self c => neverCheck (simplifyOk (evalDispatch ops I self c))
  callF := callStep I

/-- The fuel-indexed interpreter: level 0 always runs out of fuel. -/
def interp (ops : Ops) : Nat → Interp
  | 0 =>
    { matchPtnF := fun _ _ => .spin
      evalF := fun _ c => (.spin, c)
      callF := fun _ _ c => (.spin, c) }
  | fuel + 1 => interpStep ops (interp ops fuel)

/-- `SExpr::match_ptn(self = pat, expr)` at the given fuel. -/
def match_ptn (ops : Ops) (fuel : Nat) (pat expr : SExpr) :
    Outcome (Option Bindings) :=
  (interp ops fuel).matchPtnF pat expr

/-- `SExpr::eval(self, cxt)` at the given fuel. -/
def eval (ops : Ops) (fuel : Nat) (self : SExpr) (c : Context) :
    Outcome SExpr × Context :=
  (interp ops fuel).evalF self c

/-- `Fun::call(self = fn, args, cxt)` at the given fuel. -/
def call (ops : Ops) (fuel : Nat) (fn : Fn) (args : List SExpr) (c : Context) :
    Outcome SExpr × Context :=
  (interp ops fuel).callF fn args c

/-- A trivial operation table used for closed instances: every operation
reports `CannotEvaluate` and leaves the environment unchanged. -/
def ops0 : Ops := fun _ c => (.err .CannotEvaluate, c)

/-- A growth function for C1's failing input: it accepts any single argument
and returns the pattern `Number 1`, which never matches the value `Number 2`. -/
def kleeneNeverMatchingNext : Fn := .mk (.Number 1) (.List [.Place (ident "a")]) []

mutual
/-- Auxiliary predicate (not a source function) used to state amended claim
C4: the term contains no `Operation` at any position the literal comparison
can reach (comparing two `Operation`s panics in the source). Only the list
structure needs traversing, because `matches_literally` rejects every other
composite variant. -/
def operation_free : SExpr → Bool
  | .Operation _ => false
  | .List ls => operationFreeList ls
  | _ => true

def operationFreeList : List SExpr → Bool
  | [] => true
  | e :: rest => operation_free e && operationFreeList rest
end

/-- Whether a value list begins with a `ZeroWidth` element. -/
def headIsZeroWidth : List SExpr → Bool
  | .ZeroWidth _ :: _ => true
  | _ => false

/-- C10 scenario: the deferred pattern function of an `AtPtnTime` parameter
pattern — its body is the free identifier `x` and its closure is empty. -/
def atPtnTimeInner : Fn := .mk (.Ident (ident "x")) (.List []) []

/-- C10 scenario: a function whose parameter pattern is the `AtPtnTime`
deferral of `atPtnTimeInner`. -/
def atPtnTimeOuter : Fn := .mk (.Number 1) (.AtPtnTime (.Fun atPtnTimeInner)) []

/-- C10 scenario: an environment binding both `x` (visible at the match site)
and `g` (the function under application). -/
def atCxt : Context := ⟨[[(ident "x", .Number 7), (ident "g", .Fun atPtnTimeOuter)]]⟩

/-- C10 scenario: a `Kleene` growth function whose body is the free
identifier `x` with an empty closure. -/
def kleeneNextX : Fn := .mk (.Ident (ident "x")) (.List [.Place (ident "a")]) []

/-- C10 scenario: a function whose parameter pattern is a `Kleene` grown by
`kleeneNextX`. -/
def kleeneOuter : Fn := .mk (.Number 1) (.List [.Kleene (.List []) kleeneNextX]) []

/-- C10 scenario: an environment binding both `x` and `g`. -/
def kleeneCxt : Context := ⟨[[(ident "x", .Number 7), (ident "g", .Fun kleeneOuter)]]⟩

theorem neverCheck_fst_ne (o : Outcome SExpr × Context) :
    (neverCheck o).1 ≠ .ok .Never := by
  rcases o with ⟨r, c⟩
  cases r with
  | ok v => cases v <;> simp [neverCheck]
  | err e => simp [neverCheck]
  | fault => simp [neverCheck]
  | spin => simp [neverCheck]

/-- Claim C8: for every number `n`, evaluating the term `Number(n)` in any
environment (and with any operation table, at any positive fuel) succeeds and
returns `Number(n)` itself, leaving the environment unchanged. -/
theorem number_self_evaluates : ∀ ops fuel n c,
    eval ops (fuel + 1) (.Number n) c = (.ok (.Number n), c) :=
  fun _ _ _ _ => rfl

/-- Claim C9: `matches_literally` and `matches_singular` are undefined
(`unreachable!()`, a panic) on `Spread` and `Never`, and calling `match_ptn`
with a pattern that is `Spread` or `Never` — or a list pattern whose head the
classifier reaches is `Spread` or `Never` — panics rather than returning any
`Ok` or `Err` result. -/
theorem spread_never_patterns_fault : ∀ ops fuel xs rest t,
    matches_literally (.Spread xs) = none ∧
    matches_singular (.Spread xs) = none ∧
    matches_literally .Never = none ∧
    matches_singular .Never = none ∧
    match_ptn ops (fuel + 1) (.Spread xs) t = .fault ∧
    match_ptn ops (fuel + 1) .Never t = .fault ∧
    match_ptn ops (fuel + 1) (.List (.Spread xs :: rest)) t = .fault ∧
    match_ptn ops (fuel + 1) (.List (.Never :: rest)) t = .fault :=
  fun _ _ _ _ _ => ⟨rfl, rfl, rfl, rfl, rfl, rfl, rfl, rfl⟩

/-- Claim C5 (amended): `eval` never returns `Never` inside a successful
result — a computed `Ok(Never)` is converted to the `ReachedTheUnreachable`
error, as the lookup of an identifier bound to `Never` shows — but evaluating
a `Never` term directly panics (`panic!("Somehow reached beyond the
unreachable")`) instead of reporting `ReachedTheUnreachable`. -/
theorem never_result_reported_amended :
    (∀ ops fuel e c, (eval ops fuel e c).1 ≠ .ok .Never) ∧
    eval ops0 1 (.Ident (ident "never")) ⟨[[(ident "never", .Never)]]⟩ =
      (.err .ReachedTheUnreachable, ⟨[[(ident "never", .Never)]]⟩) ∧
    eval ops0 1 .Never Context.empty = (.fault, Context.empty) := by
  refine ⟨?_, rfl, rfl⟩
  intro ops fuel e c
  cases fuel with
  | zero => simp [eval, interp]
  | succ f => exact neverCheck_fst_ne _

/-- Claim C5 (counterexample): evaluating a `Never` term directly panics; it
does not report the `ReachedTheUnreachable` error the claim promises. -/
theorem never_direct_eval_cex :
    (eval ops0 1 .Never Context.empty).1 = .fault ∧
    (eval ops0 1 .Never Context.empty).1 ≠ .err .ReachedTheUnreachable :=
  ⟨rfl, fun h => Outcome.noConfusion h⟩

/-- Claim C1: on a `Kleene` pattern for which no repetition count succeeds,
`match_ptn` returns `Some(Bindings::basic())` — the initial value of the
accumulator, set on the source line marked `//dbg` — instead of the `None` the
claim (and the spec) promise. Here `start` is the empty sequence, the value
list is `[2]`, the grown patterns `[]` and `[1]` never match together with the
empty tail, and yet the match succeeds. -/
theorem kleene_no_success_returns_basic :
    match_ptn ops0 8 (.List [.Kleene (.List []) kleeneNeverMatchingNext])
      (.List [.Number 2]) = .ok (some Bindings.basic) ∧
    match_ptn ops0 8 (.List [.Kleene (.List []) kleeneNeverMatchingNext])
      (.List [.Number 2]) ≠ .ok none :=
  ⟨rfl, fun h => Option.noConfusion (Outcome.ok.inj h)⟩

/-- Claim C2 (counterexample): `match_ptn([Consecutive([A, B])], [A])` panics
(the `exprs[..pats.len()]` slice is out of bounds); it does not return `None`
as the claim states. -/
theorem consecutive_short_value_panics_cex :
    match_ptn ops0 3 (.List [.Consecutive [.Sigil 'a', .Sigil 'b']])
      (.List [.Sigil 'a']) = .fault ∧
    match_ptn ops0 3 (.List [.Consecutive [.Sigil 'a', .Sigil 'b']])
      (.List [.Sigil 'a']) ≠ .ok none :=
  ⟨rfl, fun h => Outcome.noConfusion h⟩

/-- Claim C2 (amended): when a list pattern is `[Consecutive(block)]` and the
value list has fewer than `len(block)` elements, `match_ptn` panics (slice
index out of bounds) rather than returning `None`, regardless of partial
matches. -/
theorem consecutive_short_value_faults : ∀ ops fuel block val,
    val.length < block.length →
    match_ptn ops (fuel + 1) (.List [.Consecutive block]) (.List val) = .fault := by
  intro ops fuel block val h
  cases val with
  | nil =>
    have hb : ¬ (block.length ≤ 0) := by simp at h; omega
    simp [match_ptn, interp, interpStep, matchPtnStep, matches_literally, mlList,
      matchListWith, matches_singular, matchHeadWith, hb]
  | cons q qtail =>
    have hb : ¬ (block.length ≤ qtail.length + 1) := by simp at h; omega
    simp [match_ptn, interp, interpStep, matchPtnStep, matches_literally, mlList,
      matchListWith, matches_singular, matchHeadWith, lastOf, hb]

/-- Claim C2 (witness for the amended theorem): the two-element `Consecutive`
block against a one-element value list panics. -/
theorem consecutive_short_value_faults_witness :
    match_ptn ops0 3 (.List [.Consecutive [.Sigil 'a', .Sigil 'b']])
      (.List [.Sigil 'a']) = .fault :=
  consecutive_short_value_faults ops0 2 [.Sigil 'a', .Sigil 'b'] [.Sigil 'a']
    (by simp)

theorem simplifyChildren_append : ∀ a b : List SExpr,
    simplifyChildren (a ++ b) = simplifyChildren a ++ simplifyChildren b := by
  intro a b
  induction a with
  | nil => rfl
  | cons e rest ih => simp [simplifyChildren, ih]

theorem simplifyChildren_id : ∀ ls : List SExpr, (∀ e ∈ ls, e.kind ≠ .Spread) →
    simplifyChildren ls = ls := by
  intro ls
  induction ls with
  | nil => intro _; rfl
  | cons e rest ih =>
    intro h
    have hr := ih fun x hx => h x (by simp [hx])
    cases e <;> solve
      | simp [simplifyChildren, simplify, hr]
      | (rename_i xs
         have hcontra := h (SExpr.Spread xs) (by simp)
         simp [SExpr.kind] at hcontra)

theorem simplifyChildren_idem : ∀ ls : List SExpr,
    (∀ e ∈ ls, ∀ xs, e = .Spread xs → ∀ y ∈ xs, y.kind ≠ .Spread) →
    simplifyChildren (simplifyChildren ls) = simplifyChildren ls := by
  intro ls
  induction ls with
  | nil => intro _; rfl
  | cons e rest ih =>
    intro h
    have hrest := ih fun x hx xs hxs y hy => h x (by simp [hx]) xs hxs y hy
    cases e <;> solve
      | simp [simplifyChildren, simplify, hrest]
      | (rename_i xs
         have hxs : ∀ y ∈ xs, y.kind ≠ .Spread :=
           fun y hy => h _ (by simp) xs rfl y hy
         rw [show simplifyChildren (SExpr.Spread xs :: rest) =
               xs ++ simplifyChildren rest from by simp [simplifyChildren, simplify],
             simplifyChildren_append, simplifyChildren_id xs hxs, hrest])

/-- Claim C3 (counterexample): `simplify` is not idempotent on every `List`.
For `L = List [Spread [Spread []]]`, one pass splices the outer spread leaving
`List [Spread []]`, and a second pass splices again, yielding `List []`. -/
theorem simplify_not_idempotent_cex :
    simplify (simplify (.List [.Spread [.Spread []]])) ≠
      simplify (.List [.Spread [.Spread []]]) := by
  intro h
  have h2 : (SExpr.List [] : SExpr) = .List [.Spread []] := h
  simp at h2

/-- Claim C3 (amended): `simplify` is idempotent on every `List` none of whose
`Spread` children contains a `Spread` element (one splice pass leaves no
direct `Spread` child behind), and a `List` with no direct `Spread` children —
in particular one wholly free of spreads — is a fixed point of `simplify`. -/
theorem simplify_idempotent_amended :
    (∀ ls : List SExpr,
      (∀ e ∈ ls, ∀ xs, e = .Spread xs → ∀ y ∈ xs, y.kind ≠ .Spread) →
      simplify (simplify (.List ls)) = simplify (.List ls)) ∧
    (∀ ls : List SExpr, (∀ e ∈ ls, e.kind ≠ .Spread) →
      simplify (.List ls) = .List ls) := by
  constructor
  · intro ls h
    show SExpr.List (simplifyChildren (simplifyChildren ls)) =
      SExpr.List (simplifyChildren ls)
    rw [simplifyChildren_idem ls h]
  · intro ls h
    show SExpr.List (simplifyChildren ls) = SExpr.List ls
    rw [simplifyChildren_id ls h]

/-- Claim C3 (witness for the amended theorem): a list with one flat spread
child is simplified idempotently, and a spread-free list is a fixed point. -/
theorem simplify_idempotent_amended_witness :
    simplify (simplify (.List [.Spread [.Sigil 'b']])) =
      simplify (.List [.Spread [.Sigil 'b']]) ∧
    simplify (.List [.Sigil 'a']) = .List [.Sigil 'a'] := by
  constructor
  · refine simplify_idempotent_amended.1 [.Spread [.Sigil 'b']] ?_
    intro e he xs hxs y hy
    simp at he
    subst he
    injection hxs with h2
    subst h2
    simp at hy
    subst hy
    simp [SExpr.kind]
  · refine simplify_idempotent_amended.2 [.Sigil 'a'] ?_
    intro e he
    simp at he
    subst he
    simp [SExpr.kind]

theorem mlList_mem : ∀ ls : List SExpr, mlList ls = some true →
    ∀ e ∈ ls, matches_literally e = some true := by
  intro ls
  induction ls with
  | nil => intro _ e he; simp at he
  | cons a as ih =>
    intro h e he
    rcases hm : matches_literally a with _ | b
    · simp [mlList, hm] at h
    · cases b
      · simp [mlList, hm] at h
      · simp only [mlList, hm] at h
        rcases List.mem_cons.1 he with rfl | he2
        · exact hm
        · exact ih h e he2

theorem operationFreeList_mem : ∀ ls : List SExpr, operationFreeList ls = true →
    ∀ e ∈ ls, operation_free e = true := by
  intro ls
  induction ls with
  | nil => intro _ e he; simp at he
  | cons a as ih =>
    intro h e he
    simp only [operationFreeList, Bool.and_eq_true] at h
    rcases List.mem_cons.1 he with rfl | he2
    · exact h.1
    · exact ih h.2 e he2

theorem beqElems_lit_not_none : ∀ ls rs : List SExpr,
    (∀ e ∈ ls, ∀ T, beq e T ≠ none) →
    beqElems ls rs ≠ none := by
  intro ls
  induction ls with
  | nil => intro rs _; simp [beqElems]
  | cons a as ih =>
    intro rs h
    cases rs with
    | nil => simp [beqElems]
    | cons b bs =>
      rcases hb : beq a b with _ | bv
      · exact absurd hb (h a (by simp) b)
      · cases bv
        · simp [beqElems, hb]
        · simp only [beqElems, hb]
          exact ih bs fun e he T => h e (by simp [he]) T

theorem beq_lit_not_none : ∀ (n : Nat) (P : SExpr), sizeOf P ≤ n →
    matches_literally P = some true → operation_free P = true →
    ∀ T, beq P T ≠ none := by
  intro n
  induction n with
  | zero =>
    intro P hsz
    exact absurd hsz (by cases P <;> simp)
  | succ n ih =>
    intro P hsz hml hof T
    cases P with
    | Sigil c => cases T <;> simp [beq, SExpr.kind]
    | Ident i => cases T <;> simp [beq, SExpr.kind]
    | Number m => cases T <;> simp [beq, SExpr.kind]
    | Operation op => simp [operation_free] at hof
    | List ls =>
      have hml2 := mlList_mem ls (by simpa [matches_literally] using hml)
      have hof2 := operationFreeList_mem ls (by simpa [operation_free] using hof)
      have hsz2 : ∀ e ∈ ls, sizeOf e ≤ n := by
        intro e he
        have h1 : sizeOf e < sizeOf ls := List.sizeOf_lt_of_mem he
        have h2 : sizeOf (SExpr.List ls) ≤ n + 1 := hsz
        have h3 : 1 + sizeOf ls ≤ n + 1 := by simpa using h2
        omega
      have hElem : ∀ e ∈ ls, ∀ T2, beq e T2 ≠ none := fun e he T2 =>
        ih e (hsz2 e he) (hml2 e he) (hof2 e he) T2
      cases T <;> solve
        | simp [beq, SExpr.kind]
        | (rename_i rs
           simp only [beq]
           by_cases hlen : ls.length = rs.length
           · rw [if_pos hlen]
             exact beqElems_lit_not_none ls rs hElem
           · rw [if_neg hlen]
             simp)
    | Place i => simp [matches_literally] at hml
    | Fun f => simp [matches_literally] at hml
    | UnarySigilApp c a => simp [matches_literally] at hml
    | PtnAcc a i p => simp [matches_literally] at hml
    | Consecutive p => simp [matches_literally] at hml
    | Spread l => simp [matches_literally] at hml
    | Kleene s nx => simp [matches_literally] at hml
    | AtPtnTime p => simp [matches_literally] at hml
    | LitMatch p => simp [matches_literally] at hml
    | ZeroWidth p => simp [matches_literally] at hml
    | Never => simp [matches_literally] at hml

/-- Claim C4 (counterexample): `Operation` satisfies `matches_literally`, yet
matching a literal `Operation` pattern against an `Operation` term panics
inside the structural-equality comparison; the match returns neither
`Some(empty bindings)` nor `None`, so the claimed dichotomy fails. -/
theorem literal_match_operation_cex :
    matches_literally (.Operation 0) = some true ∧
    match_ptn ops0 1 (.Operation 0) (.Operation 0) = .fault ∧
    match_ptn ops0 1 (.Operation 0) (.Operation 0) ≠ .ok (some Bindings.empty) ∧
    match_ptn ops0 1 (.Operation 0) (.Operation 0) ≠ .ok none :=
  ⟨rfl, rfl, fun h => Outcome.noConfusion h, fun h => Outcome.noConfusion h⟩

/-- Claim C4 (amended): for every pattern `P` with `matches_literally(P)` true
that contains no `Operation`, and every term `T`, the structural comparison
`P == T` is defined (does not panic) and `match_ptn(P, T)` returns
`Some(empty bindings)` when `P == T` and `None` otherwise. -/
theorem literal_match_dichotomy_amended : ∀ ops fuel P T,
    matches_literally P = some true → operation_free P = true →
    beq P T ≠ none ∧
    match_ptn ops (fuel + 1) P T =
      .ok (if beq P T = some true then some Bindings.empty else none) := by
  intro ops fuel P T hml hof
  have htot := beq_lit_not_none (sizeOf P) P (le_refl _) hml hof T
  refine ⟨htot, ?_⟩
  rcases hb : beq P T with _ | b
  · exact absurd hb htot
  · cases b
    · simp [match_ptn, interp, interpStep, matchPtnStep, hml, hb]
    · simp [match_ptn, interp, interpStep, matchPtnStep, hml, hb]

/-- Claim C4 (witness for the amended theorem): a literal, `Operation`-free
list pattern matched against an equal term yields empty bindings, and against
a differing term fails. -/
theorem literal_match_dichotomy_witness :
    match_ptn ops0 2 (.List [.Sigil 'a', .Number 3]) (.List [.Sigil 'a', .Number 3]) =
      .ok (some Bindings.empty) ∧
    match_ptn ops0 2 (.List [.Sigil 'a', .Number 3]) (.List [.Sigil 'a', .Number 4]) =
      .ok none := by
  constructor
  · exact (literal_match_dichotomy_amended ops0 1 (.List [.Sigil 'a', .Number 3])
      (.List [.Sigil 'a', .Number 3]) rfl rfl).2
  · exact (literal_match_dichotomy_amended ops0 1 (.List [.Sigil 'a', .Number 3])
      (.List [.Sigil 'a', .Number 4]) rfl rfl).2

/-- Claim C7: when a list pattern begins with `ZeroWidth(inner)` and the value
list does not begin with a `ZeroWidth` element, the `ZeroWidth` head consumes
no value position: once the earlier singular-peel case does not apply (always
so for an empty value list), `match_ptn` matches the remaining pattern tail
against the same, unconsumed value list — in particular the `ZeroWidth`
element never requires the value list to contain an element for it. -/
theorem zero_width_nonconsuming : ∀ ops fuel inner rest val,
    headIsZeroWidth val = false →
    (val = [] ∨ matches_singular (lastOf (.ZeroWidth inner) rest) = some false) →
    match_ptn ops (fuel + 1) (.List (.ZeroWidth inner :: rest)) (.List val) =
      match_ptn ops fuel (.List rest) (.List val) := by
  intro ops fuel inner rest val hq hlast
  cases val with
  | nil => rfl
  | cons q qtail =>
    rcases hlast with h | hlast
    · simp at h
    · show matchListWith (interp ops fuel).matchPtnF (interp ops fuel).callF
        (.ZeroWidth inner :: rest) (q :: qtail) =
        (interp ops fuel).matchPtnF (.List rest) (.List (q :: qtail))
      simp only [matchListWith, hlast, matches_singular]
      cases q <;> first
        | rfl
        | simp [headIsZeroWidth] at hq

/-- Claim C7 (witness): a lone `ZeroWidth` pattern element against a
one-element, non-`ZeroWidth` value list defers to the empty pattern tail
against the same value list. -/
theorem zero_width_nonconsuming_witness :
    match_ptn ops0 2 (.List [.ZeroWidth (.Sigil 'z')]) (.List [.Number 3]) =
      match_ptn ops0 1 (.List []) (.List [.Number 3]) :=
  zero_width_nonconsuming ops0 1 (.Sigil 'z') [] [.Number 3] rfl (Or.inr rfl)

/-- Claim C10: the function deferred by an `AtPtnTime` pattern is invoked with
no arguments in a fresh empty environment (`Context::empty`), never in the
environment of the enclosing evaluation — the unfolding equation makes the
empty environment explicit — and behaviorally, both an `AtPtnTime` pattern
function and a `Kleene` growth function whose body is the identifier `x` fail
with `UnknownName` even though `x` is bound at the application site. -/
theorem ptn_time_fns_fresh_empty_env :
    (∀ ops fuel body aptn clo t,
      match_ptn ops (fuel + 1) (.AtPtnTime (.Fun (.mk body aptn clo))) t =
        (match (call ops fuel (.mk body aptn clo) [] Context.empty).1 with
         | .ok v => match_ptn ops fuel v t
         | .err e => .err e
         | .fault => .fault
         | .spin => .spin)) ∧
    eval ops0 6 (.List [.Ident (ident "g")]) atCxt = (.err .UnknownName, atCxt) ∧
    eval ops0 8 (.List [.Ident (ident "g"), .Number 5]) kleeneCxt =
      (.err .UnknownName, kleeneCxt) :=
  ⟨fun _ _ _ _ _ _ => rfl, rfl, rfl⟩

theorem or_resolve {α : Type} {r : Outcome α} {p : Prop}
    (h : r = .fault ∨ p) (hr : r ≠ .fault) : p := by
  rcases h with h | h
  · exact absurd h hr
  · exact h

theorem simplifyOk_snd (o : Outcome SExpr × Context) : (simplifyOk o).2 = o.2 := by
  rcases o with ⟨r, c⟩
  cases r <;> rfl

theorem neverCheck_snd (o : Outcome SExpr × Context) : (neverCheck o).2 = o.2 := by
  rcases o with ⟨r, c⟩
  cases r with
  | ok v => cases v <;> rfl
  | err e => rfl
  | fault => rfl
  | spin => rfl

theorem simplifyOk_fst_fault (o : Outcome SExpr × Context) :
    (simplifyOk o).1 = .fault ↔ o.1 = .fault := by
  rcases o with ⟨r, c⟩
  cases r <;> simp [simplifyOk]

theorem neverCheck_fst_fault (o : Outcome SExpr × Context) :
    (neverCheck o).1 = .fault ↔ o.1 = .fault := by
  rcases o with ⟨r, c⟩
  cases r with
  | ok v => cases v <;> simp [neverCheck]
  | err e => simp [neverCheck]
  | fault => simp [neverCheck]
  | spin => simp [neverCheck]

theorem push_add_push_add_len (c : Context) (x y : Bindings) :
    ((((c.push_scope).add_bindings x).push_scope).add_bindings y).scopes.length =
      c.scopes.length + 2 := by
  rcases c with ⟨s⟩
  simp [Context.push_scope, Context.add_bindings]

theorem pop_pop_len (c : Context) :
    ((c.pop_scope).pop_scope).scopes.length = c.scopes.length - 2 := by
  rcases c with ⟨s⟩
  simp [Context.pop_scope, List.length_tail]
  omega

theorem evalArgsWith_scopes (ev : SExpr → Context → Outcome SExpr × Context)
    (hev : ∀ e c, (ev e c).1 = .fault ∨ ((ev e c).2).scopes.length = c.scopes.length) :
    ∀ args c, (evalArgsWith ev args c).1 = .fault ∨
      ((evalArgsWith ev args c).2).scopes.length = c.scopes.length := by
  intro args
  induction args with
  | nil => intro c; right; rfl
  | cons e rest ih =>
    intro c
    rcases h0 : ev e c with ⟨r0, c1⟩
    have hev0 := hev e c
    rw [h0] at hev0
    cases r0 with
    | fault => left; simp [evalArgsWith, h0]
    | err er =>
      right
      have hc1 : c1.scopes.length = c.scopes.length := or_resolve hev0 (by simp)
      simp [evalArgsWith, h0, hc1]
    | spin =>
      right
      have hc1 : c1.scopes.length = c.scopes.length := or_resolve hev0 (by simp)
      simp [evalArgsWith, h0, hc1]
    | ok v =>
      have hc1 : c1.scopes.length = c.scopes.length := or_resolve hev0 (by simp)
      rcases h1 : evalArgsWith ev rest c1 with ⟨r1, c2⟩
      have ih1 := ih c1
      rw [h1] at ih1
      cases r1 with
      | fault => left; simp [evalArgsWith, h0, h1]
      | ok vs =>
        right
        have hc2 : c2.scopes.length = c1.scopes.length := or_resolve ih1 (by simp)
        simp [evalArgsWith, h0, h1, hc2, hc1]
      | err er =>
        right
        have hc2 : c2.scopes.length = c1.scopes.length := or_resolve ih1 (by simp)
        simp [evalArgsWith, h0, h1, hc2, hc1]
      | spin =>
        right
        have hc2 : c2.scopes.length = c1.scopes.length := or_resolve ih1 (by simp)
        simp [evalArgsWith, h0, h1, hc2, hc1]

theorem evalDispatch_scopes (ops : Ops)
    (hops : ∀ n c2, ((ops n c2).2).scopes.length = c2.scopes.length) (I : Interp)
    (ihe : ∀ e c2, (I.evalF e c2).1 = .fault ∨
      ((I.evalF e c2).2).scopes.length = c2.scopes.length)
    (ihc : ∀ fn args c2, (I.callF fn args c2).1 = .fault ∨
      ((I.callF fn args c2).2).scopes.length = c2.scopes.length) :
    ∀ e c, (evalDispatch ops I e c).1 = .fault ∨
      ((evalDispatch ops I e c).2).scopes.length = c.scopes.length := by
  intro e c
  cases hs : simplify e with
  | List ls =>
    cases ls with
    | nil => right; simp [evalDispatch, hs]
    | cons e0 rest =>
      rcases h0 : I.evalF e0 c with ⟨r0, c1⟩
      have hev0 := ihe e0 c
      rw [h0] at hev0
      cases r0 with
      | fault => left; simp [evalDispatch, hs, h0]
      | err er =>
        right
        have hc1 : c1.scopes.length = c.scopes.length := or_resolve hev0 (by simp)
        simp [evalDispatch, hs, h0, hc1]
      | spin =>
        right
        have hc1 : c1.scopes.length = c.scopes.length := or_resolve hev0 (by simp)
        simp [evalDispatch, hs, h0, hc1]
      | ok v =>
        have hc1 : c1.scopes.length = c.scopes.length := or_resolve hev0 (by simp)
        cases hv : as_fun v with
        | none => right; simp [evalDispatch, hs, h0, hv, hc1]
        | some fn =>
          rcases h1 : evalArgsWith I.evalF rest c1 with ⟨r1, c2⟩
          have hargs := evalArgsWith_scopes I.evalF ihe rest c1
          rw [h1] at hargs
          cases r1 with
          | fault => left; simp [evalDispatch, hs, h0, hv, h1]
          | err er =>
            right
            have hc2 : c2.scopes.length = c1.scopes.length := or_resolve hargs (by simp)
            simp [evalDispatch, hs, h0, hv, h1, hc2, hc1]
          | spin =>
            right
            have hc2 : c2.scopes.length = c1.scopes.length := or_resolve hargs (by simp)
            simp [evalDispatch, hs, h0, hv, h1, hc2, hc1]
          | ok args =>
            have hc2 : c2.scopes.length = c1.scopes.length := or_resolve hargs (by simp)
            rcases h2 : I.callF fn args c2 with ⟨r2, c3⟩
            have hcall := ihc fn args c2
            rw [h2] at hcall
            cases r2 with
            | fault => left; simp [evalDispatch, hs, h0, hv, h1, h2]
            | ok v2 =>
              right
              have hc3 : c3.scopes.length = c2.scopes.length := or_resolve hcall (by simp)
              simp [evalDispatch, hs, h0, hv, h1, h2, hc3, hc2, hc1]
            | err er =>
              right
              have hc3 : c3.scopes.length = c2.scopes.length := or_resolve hcall (by simp)
              simp [evalDispatch, hs, h0, hv, h1, h2, hc3, hc2, hc1]
            | spin =>
              right
              have hc3 : c3.scopes.length = c2.scopes.length := or_resolve hcall (by simp)
              simp [evalDispatch, hs, h0, hv, h1, h2, hc3, hc2, hc1]
  | UnarySigilApp sig arg =>
    rcases h0 : I.evalF (.Sigil sig) c with ⟨r0, c1⟩
    have hev0 := ihe (.Sigil sig) c
    rw [h0] at hev0
    cases r0 with
    | fault => left; simp [evalDispatch, hs, h0]
    | err er =>
      right
      have hc1 : c1.scopes.length = c.scopes.length := or_resolve hev0 (by simp)
      simp [evalDispatch, hs, h0, hc1]
    | spin =>
      right
      have hc1 : c1.scopes.length = c.scopes.length := or_resolve hev0 (by simp)
      simp [evalDispatch, hs, h0, hc1]
    | ok v =>
      have hc1 : c1.scopes.length = c.scopes.length := or_resolve hev0 (by simp)
      cases hv : as_fun v with
      | none => right; simp [evalDispatch, hs, h0, hv, hc1]
      | some fn =>
        rcases h2 : I.callF fn [arg] c1 with ⟨r2, c3⟩
        have hcall := ihc fn [arg] c1
        rw [h2] at hcall
        cases r2 with
        | fault => left; simp [evalDispatch, hs, h0, hv, h2]
        | ok v2 =>
          right
          have hc3 : c3.scopes.length = c1.scopes.length := or_resolve hcall (by simp)
          simp [evalDispatch, hs, h0, hv, h2, hc3, hc1]
        | err er =>
          right
          have hc3 : c3.scopes.length = c1.scopes.length := or_resolve hcall (by simp)
          simp [evalDispatch, hs, h0, hv, h2, hc3, hc1]
        | spin =>
          right
          have hc3 : c3.scopes.length = c1.scopes.length := or_resolve hcall (by simp)
          simp [evalDispatch, hs, h0, hv, h2, hc3, hc1]
  | Ident id =>
    rcases hl : c.lookup id with _ | v
    · right; simp [evalDispatch, hs, hl]
    · right; simp [evalDispatch, hs, hl]
  | Operation op =>
    right
    simp only [evalDispatch, hs]
    exact hops op c
  | Sigil s =>
    rcases hm : make_sigil_ident s with _ | sid
    · left; simp [evalDispatch, hs, hm]
    · rcases hl : c.lookup sid with _ | v
      · right; simp [evalDispatch, hs, hm, hl]
      · right; simp [evalDispatch, hs, hm, hl]
  | Spread ls => right; simp [evalDispatch, hs]
  | Consecutive p => right; simp [evalDispatch, hs]
  | Kleene s nx => right; simp [evalDispatch, hs]
  | LitMatch p => right; simp [evalDispatch, hs]
  | Place i => right; simp [evalDispatch, hs]
  | PtnAcc a i p => right; simp [evalDispatch, hs]
  | Fun f => right; simp [evalDispatch, hs]
  | ZeroWidth p => right; simp [evalDispatch, hs]
  | AtPtnTime p => right; simp [evalDispatch, hs]
  | Number n => right; simp [evalDispatch, hs]
  | Never => left; simp [evalDispatch, hs]

theorem callStep_scopes (I : Interp)
    (ihe : ∀ e c2, (I.evalF e c2).1 = .fault ∨
      ((I.evalF e c2).2).scopes.length = c2.scopes.length) :
    ∀ fn args c, (callStep I fn args c).1 = .fault ∨
      ((callStep I fn args c).2).scopes.length = c.scopes.length := by
  intro fn args c
  rcases hm : I.matchPtnF fn.args_ptn (.List args) with b | er | _ | _
  · cases b with
    | none => right; simp [callStep, hm]
    | some bs =>
      rcases hb : I.evalF fn.body
          ((((c.push_scope).add_bindings fn.closure).push_scope).add_bindings bs) with ⟨r, c2⟩
      have hev := ihe fn.body
        ((((c.push_scope).add_bindings fn.closure).push_scope).add_bindings bs)
      rw [hb] at hev
      have hlen := push_add_push_add_len c fn.closure bs
      cases r with
      | fault => left; simp [callStep, hm, hb]
      | ok v =>
        right
        have hc2 := or_resolve hev (by simp)
        simp at hc2
        simp [callStep, hm, hb, pop_pop_len]
        omega
      | err er =>
        right
        have hc2 := or_resolve hev (by simp)
        simp at hc2
        simp [callStep, hm, hb, pop_pop_len]
        omega
      | spin =>
        right
        have hc2 := or_resolve hev (by simp)
        simp at hc2
        simp [callStep, hm, hb, pop_pop_len]
        omega
  · right; simp [callStep, hm]
  · left; simp [callStep, hm]
  · right; simp [callStep, hm]

theorem interp_scopes (ops : Ops)
    (hops : ∀ n c, ((ops n c).2).scopes.length = c.scopes.length) :
    ∀ fuel,
      (∀ e c, ((interp ops fuel).evalF e c).1 = .fault ∨
        (((interp ops fuel).evalF e c).2).scopes.length = c.scopes.length) ∧
      (∀ fn args c, ((interp ops fuel).callF fn args c).1 = .fault ∨
        (((interp ops fuel).callF fn args c).2).scopes.length = c.scopes.length) := by
  intro fuel
  induction fuel with
  | zero => exact ⟨fun e c => Or.inr rfl, fun fn args c => Or.inr rfl⟩
  | succ f ih =>
    obtain ⟨ihe, ihc⟩ := ih
    constructor
    · intro e c
      have key := evalDispatch_scopes ops hops (interp ops f) ihe ihc e c
      rcases key with h | h
      · left
        show (neverCheck (simplifyOk (evalDispatch ops (interp ops f) e c))).1 = .fault
        exact (neverCheck_fst_fault _).2 ((simplifyOk_fst_fault _).2 h)
      · right
        show ((neverCheck (simplifyOk
          (evalDispatch ops (interp ops f) e c))).2).scopes.length = c.scopes.length
        rw [neverCheck_snd, simplifyOk_snd]
        exact h
    · intro fn args c
      exact callStep_scopes (interp ops f) ihe fn args c

/-- Claim C6: with every builtin operation preserving the scope-stack depth
(the builtin table is outside `src/`; the spec requires the stack never be
left unbalanced), `Fun::call` leaves the scope-stack depth unchanged on every
non-panicking exit path — whether the body evaluation succeeds or fails — and
on a parameter-match failure it reports `NonMatchingArgs` with the environment
entirely untouched. -/
theorem call_scope_balance (ops : Ops)
    (hops : ∀ n c, ((ops n c).2).scopes.length = c.scopes.length) :
    (∀ fuel fn args c, (call ops fuel fn args c).1 ≠ .fault →
      ((call ops fuel fn args c).2).scopes.length = c.scopes.length) ∧
    (∀ fuel fn args c, match_ptn ops fuel fn.args_ptn (.List args) = .ok none →
      call ops (fuel + 1) fn args c = (.err .NonMatchingArgs, c)) := by
  constructor
  · intro fuel fn args c hf
    exact or_resolve ((interp_scopes ops hops fuel).2 fn args c) hf
  · intro fuel fn args c h
    have h2 : (interp ops fuel).matchPtnF fn.args_ptn (.List args) = .ok none := h
    show callStep (interp ops fuel) fn args c = _
    simp [callStep, h2]

/-- Claim C6 (witness): with the trivial depth-preserving operation table, a
successful call leaves the environment depth unchanged, and a call whose
argument list the parameter pattern rejects fails with `NonMatchingArgs`
leaving the environment untouched. -/
theorem call_scope_balance_witness :
    ((call ops0 3 (.mk (.Number 1) (.List []) []) [] Context.empty).2).scopes.length =
      (Context.empty).scopes.length ∧
    call ops0 3 (.mk (.Number 1) (.List []) []) [.Number 2] Context.empty =
      (.err .NonMatchingArgs, Context.empty) := by
  have h := call_scope_balance ops0 (fun _ _ => rfl)
  constructor
  · exact h.1 3 (.mk (.Number 1) (.List []) []) [] Context.empty
      (fun hf => Outcome.noConfusion hf)
  · exact h.2 2 (.mk (.Number 1) (.List []) []) [.Number 2] Context.empty rfl
